import Mathlib

/-!
Shallow embedding of the synchronization/resilience layer of the mappa-pro
CRM backend: the rate-limited request executor (`withRetry` in
utils/rateLimitRetry.js), the chunked range fetcher (`buildChunks` in the
analytics routes), the token lifecycle manager (`getValidToken` /
`refreshToken` in services/fanvueApi.js and its flowdesk-backend variant),
and the reconciliation poller (`pollAccount` in services/inboxPoller.js).

Conventions of the embedding:
- JavaScript millisecond timestamps are `Int` (or `Nat` where the source
  only ever sees nonnegative values); monetary/duration arithmetic that
  mixes `Math.random()` jitter uses `ℚ` since jitter is a real in [0,500).
- Fallible remote calls are modelled by passing the outcome of the remote
  interaction as an explicit argument.
- Database tables are lists of row structures; supabase `upsert` with an
  `onConflict` key is a keyed replace-or-append.
- `encrypt`/`decrypt` (utils/encryption.js) are passed as opaque function
  arguments: no claim depends on their internals.
-/

/-- Parsed form of a truthy `Retry-After` response header, as classified by
`withRetry` in utils/rateLimitRetry.js: `Number(header)` non-NaN gives the
`numeric` case (JavaScript `Number` also accepts negative strings such as
"-1"); a NaN result falls to `new Date(header)`, the `httpDate` case with
the parsed timestamp in ms.  A `none` header below models an absent (or
empty-string, hence falsy) `Retry-After`. -/
inductive RetryAfter where
  | numeric (n : ℚ)
  | httpDate (t : ℚ)
  deriving DecidableEq, Repr

/-- Failure thrown by the wrapped call: optional HTTP status
(`err.response?.status`) and optional parsed `Retry-After` header. -/
structure FailureInfo where
  status : Option Nat
  retryAfter : Option RetryAfter
  deriving DecidableEq, Repr

/-- Outcome of one invocation of the zero-argument function given to
`withRetry`. -/
inductive CallOutcome where
  | ok (v : Nat)
  | fail (f : FailureInfo)
  deriving DecidableEq, Repr

/-- Wait computation of utils/rateLimitRetry.js lines 33-45: a truthy
`Retry-After` that parses as a number N waits `N * 1000` ms (no jitter,
no clamping); a non-numeric header is parsed as a date and waits
`max(0, date - now)`; with no header the wait is
`baseDelayMs * 2^attempt + jitter` where jitter models
`Math.random() * 500`. -/
def computeWaitMs (baseDelayMs : ℚ) (attempt : Nat) (jitter : ℚ) (now : ℚ) :
    Option RetryAfter → ℚ
  | some (.numeric n) => n * 1000
  | some (.httpDate t) => max 0 (t - now)
  | none => baseDelayMs * 2 ^ attempt + jitter

/-- Retry loop of `withRetry`, driven by the list of outcomes the wrapped
call produces on successive invocations and by the stream of jitter draws
(`Math.random() * 500` values).  Returns the final result (`none` when the
supplied outcome list was exhausted before the loop finished) together with
the list of waits that were slept, in order.  The source throws when
`status !== 429 || attempt >= maxRetries`; equivalently it retries exactly
when the status is 429 and attempts remain. -/
def withRetryGo (maxRetries : Nat) (baseDelayMs now : ℚ) :
    Nat → List CallOutcome → List ℚ → Option (Except FailureInfo Nat) × List ℚ
  | _, [], _ => (none, [])
  | _, .ok v :: _, _ => (some (.ok v), [])
  | attempt, .fail f :: rest, js =>
    if f.status = some 429 ∧ attempt < maxRetries then
      let w := computeWaitMs baseDelayMs attempt (js.headD 0) now f.retryAfter
      let p := withRetryGo maxRetries baseDelayMs now (attempt + 1) rest js.tail
      (p.1, w :: p.2)
    else (some (.error f), [])

/-- Entry point of `withRetry` with the attempt counter at 0.  Defaults at
every call site in the repository: `maxRetries = 3`, `baseDelayMs = 1000`. -/
def withRetryRun (maxRetries : Nat) (baseDelayMs now : ℚ)
    (outcomes : List CallOutcome) (jitters : List ℚ) :
    Option (Except FailureInfo Nat) × List ℚ :=
  withRetryGo maxRetries baseDelayMs now 0 outcomes jitters

/-- Shorthand for a 429 failure carrying no `Retry-After` header. -/
def fail429 : CallOutcome := .fail ⟨some 429, none⟩

/-- Chunking loop shared (up to time units) by the two `buildChunks`
implementations: starting at `cur`, repeatedly emit the window
`(cur, min (cur + step) endT)` and advance to its end while `cur < endT`.
In src/unnamed/part_004 the timeline is whole days (date-only YYYY-MM-DD
inputs are midnight timestamps and `toDateStr` truncates back to the day);
in src/routes/analytics.js it is raw milliseconds.  The JavaScript loop
does not terminate when the step is not positive, so the model guards on
`0 < step`. -/
def buildChunksGo (step endT : Nat) (cur : Nat) : List (Nat × Nat) :=
  if h : 0 < step ∧ cur < endT then
    let next := min (cur + step) endT
    (cur, next) :: buildChunksGo step endT next
  else []
termination_by endT - cur
decreasing_by
  simp only [gt_iff_lt]
  omega

/-- The `buildChunks` of src/unnamed/part_004 lines 79-97 (day-granularity
timeline, `chunkDays` defaulting to 28 at every call site): a reversed or
same-day range returns the single degenerate window, otherwise the loop
partitions the range. -/
def buildChunks (startD endD chunkDays : Nat) : List (Nat × Nat) :=
  if endD ≤ startD then [(startD, endD)]
  else buildChunksGo chunkDays endD startD

/-- The `buildChunks` of src/routes/analytics.js lines 35-46 (millisecond
timeline, `chunkDays * 86400000` step): the loop runs with no
degenerate-range guard, so a reversed or zero-length range produces no
windows at all. -/
def analyticsBuildChunks (startMs endMs stepMs : Nat) : List (Nat × Nat) :=
  buildChunksGo stepMs endMs startMs

/-- Row of the `connected_accounts` table, restricted to the columns that
the token lifecycle manager and the poller read or write. -/
structure AccountRecord where
  id : Nat
  access_token_enc : String
  refresh_token_enc : String
  token_expires_at : Int
  is_active : Bool
  needs_reconnect : Bool
  deriving DecidableEq, Repr

/-- Outcome of the POST to the remote OAuth token endpoint: either the
rotated token pair with its lifetime in seconds, or a failure whose HTTP
status is `some s` (no status models a network error with no response). -/
inductive TokenResponse where
  | ok (access_token refresh_token : String) (expires_in : Int)
  | err (status : Option Nat)
  deriving DecidableEq, Repr

/-- Supabase `update ... .eq('id', id)`: apply `f` to every row whose `id`
matches. -/
def updateAccountRow (db : List AccountRecord) (accountId : Nat)
    (f : AccountRecord → AccountRecord) : List AccountRecord :=
  db.map fun a => if a.id = accountId then f a else a

/-- The update performed on a definitive authorization failure:
`{ is_active: false, needs_reconnect: true }`. -/
def markReconnect (a : AccountRecord) : AccountRecord :=
  { a with is_active := false, needs_reconnect := true }

/-- The `refreshToken` of src/services/fanvueApi.js lines 26-62, as a
transition on the `connected_accounts` table given the outcome of the
remote token POST.  On success it persists the encrypted rotated pair and
the new expiry; on failure it flips `is_active`/`needs_reconnect` only
when the status is exactly 401 or 403, leaves the table untouched
otherwise, and rethrows in both cases. -/
def refreshTokenDb (encrypt : String → String) (now : Int)
    (db : List AccountRecord) (account : AccountRecord) (resp : TokenResponse) :
    List AccountRecord × Except String String :=
  match resp with
  | .ok access refresh expiresIn =>
    (updateAccountRow db account.id fun a =>
      { a with
        access_token_enc := encrypt access
        refresh_token_enc := encrypt refresh
        token_expires_at := now + expiresIn * 1000 },
     .ok access)
  | .err status =>
    if status = some 401 ∨ status = some 403 then
      (updateAccountRow db account.id markReconnect, .error "Token refresh failed")
    else
      (db, .error "Token refresh failed")

/-- The `refreshToken` of src/flowdesk-backend/services/fanvueApi.js lines
26-60: identical success path, but the catch block flips
`is_active`/`needs_reconnect` on every failure, with no 401/403 check. -/
def flowdeskRefreshTokenDb (encrypt : String → String) (now : Int)
    (db : List AccountRecord) (account : AccountRecord) (resp : TokenResponse) :
    List AccountRecord × Except String String :=
  match resp with
  | .ok access refresh expiresIn =>
    (updateAccountRow db account.id fun a =>
      { a with
        access_token_enc := encrypt access
        refresh_token_enc := encrypt refresh
        token_expires_at := now + expiresIn * 1000 },
     .ok access)
  | .err _ =>
    (updateAccountRow db account.id markReconnect, .error "Token refresh failed")

/-- The `getValidToken` of src/services/fanvueApi.js lines 12-21: refresh
when the stored expiry is within the 5-minute window, otherwise return the
decrypted stored access token.  The boolean records whether `refreshToken`
was invoked. -/
def getValidToken (decrypt encrypt : String → String) (now : Int)
    (db : List AccountRecord) (account : AccountRecord) (resp : TokenResponse) :
    (List AccountRecord × Except String String) × Bool :=
  if account.token_expires_at - now < 5 * 60 * 1000 then
    (refreshTokenDb encrypt now db account resp, true)
  else
    ((db, .ok (decrypt account.access_token_enc)), false)

/-- Account selection of the poll tick (`startInboxPollingJob`,
src/services/inboxPoller.js lines 27-31): rows with
`is_active = true` and `needs_reconnect = false`. -/
def eligibleAccounts (db : List AccountRecord) : List AccountRecord :=
  db.filter fun a => a.is_active && !a.needs_reconnect

/-- Row of the `messages` table, restricted to the columns the poller
writes.  `fanvue_message_id` is the remote idempotency key. -/
structure MessageRow where
  id : String
  conversation_id : Nat
  fanvue_message_id : String
  direction : String
  content : Option String
  sent_at : Int
  deriving DecidableEq, Repr

/-- Number of stored rows carrying a given idempotency key. -/
def countKey (msgs : List MessageRow) (key : String) : Nat :=
  (msgs.filter fun r => r.fanvue_message_id == key).length

/-- Remote last-message payload as read by src/services/inboxPoller.js
(`lastMsg.uuid`, `lastMsg.text`, `lastMsg.sentAt`). -/
structure RemoteMessage where
  uuid : String
  text : Option String
  sentAt : Int
  deriving DecidableEq, Repr

/-- Message ingestion of src/services/inboxPoller.js lines 111-139: select
an existing row by `fanvue_message_id`; if one exists the ingestion is a
no-op, otherwise insert a new row (fresh local `id`, direction inbound). -/
def cacheLastInbound (freshId : String) (convId : Nat)
    (msgs : List MessageRow) (m : RemoteMessage) : List MessageRow :=
  if msgs.any fun r => r.fanvue_message_id == m.uuid then msgs
  else msgs ++ [⟨freshId, convId, m.uuid, "inbound", m.text, m.sentAt⟩]

/-- Supabase upsert of one row with `onConflict: 'fanvue_message_id'`
(src/unnamed/part_008 lines 155-157): replace every row holding the key,
or append when the key is absent. -/
def upsertMessageByKey (msgs : List MessageRow) (r : MessageRow) :
    List MessageRow :=
  if msgs.any fun x => x.fanvue_message_id == r.fanvue_message_id then
    msgs.map fun x => if x.fanvue_message_id == r.fanvue_message_id then r else x
  else msgs ++ [r]

/-- Row of the `conversations` table, restricted to the columns the poller
writes.  The key is the pair `(account_id, fan_id)`; `last_message_at` is
nullable. -/
structure ConvRow where
  account_id : Nat
  fan_id : Nat
  last_message_at : Option Int
  is_unread : Bool
  unread_count : Nat
  last_message_preview : Option String
  last_message_from : String
  status : String
  deriving DecidableEq, Repr

/-- Remote chat entry as read by src/services/inboxPoller.js: the remote
last-message timestamp (in ms; `none` models a missing/unparsable
`lastMessageAt`, whose `new Date` is NaN), read state, unread count and
the optional embedded last message with its sender tag. -/
structure RemoteChat where
  lastMessageAt : Option Int
  isRead : Bool
  unreadMessagesCount : Nat
  lastMessage : Option (RemoteMessage × String)
  deriving DecidableEq, Repr

/-- Tie-break of src/services/inboxPoller.js lines 87-88:
`!existingConv || new Date(chat.lastMessageAt) > new Date(existingConv.last_message_at || 0)`.
A null cached value coalesces to 0; a NaN remote date compares false. -/
def isNewer (existing : Option ConvRow) (remoteLma : Option Int) : Bool :=
  match existing with
  | none => true
  | some conv =>
    match remoteLma with
    | none => false
    | some t => t > conv.last_message_at.getD 0

/-- Preview computation of the conversation upsert:
`lastMsg?.text?.substring(0, 100) || (lastMsg?.uuid ? '[Media]' : null)`.
An absent or empty text (JavaScript falsiness) falls back to the media
marker when the message has a uuid, else to null. -/
def previewOf (lastMessage : Option (RemoteMessage × String)) : Option String :=
  match lastMessage with
  | none => none
  | some (lm, _) =>
    match lm.text with
    | some t =>
      if t = "" then (if lm.uuid = "" then none else some "[Media]")
      else some (t.take 100)
    | none => if lm.uuid = "" then none else some "[Media]"

/-- Conversation row built by the poller upsert (lines 94-108). -/
def mkConvRow (account fanId : Nat) (chat : RemoteChat) : ConvRow where
  account_id := account
  fan_id := fanId
  last_message_at := chat.lastMessageAt
  is_unread := !chat.isRead
  unread_count := chat.unreadMessagesCount
  last_message_preview := previewOf chat.lastMessage
  last_message_from := if (chat.lastMessage.map (·.2)).getD "" == "creator" then "model" else "fan"
  status := "open"

/-- Match on the `(account_id, fan_id)` key of a conversation row. -/
def convKey (account fanId : Nat) : ConvRow → Bool := fun c =>
  c.account_id == account && c.fan_id == fanId

/-- Supabase upsert with `onConflict: 'account_id,fan_id'`: replace every
row holding the key, or append when the key is absent. -/
def upsertConv (convs : List ConvRow) (r : ConvRow) : List ConvRow :=
  if convs.any (convKey r.account_id r.fan_id) then
    convs.map fun c => if convKey r.account_id r.fan_id c then r else c
  else convs ++ [r]

/-- Per-chat body of `pollAccount` (src/services/inboxPoller.js lines
79-140), acting on the conversations and messages tables.  The fan-table
upsert that precedes it touches neither table and is omitted.  When the
tie-break rejects the remote entry, both tables pass through untouched;
otherwise the conversation row is upserted and, when the embedded last
message came from the fan, it is cached by its idempotency key. -/
def pollChatStep (account fanId : Nat) (freshId : String) (chat : RemoteChat)
    (convs : List ConvRow) (msgs : List MessageRow) :
    List ConvRow × List MessageRow :=
  let existing := convs.find? (convKey account fanId)
  if isNewer existing chat.lastMessageAt then
    let convs' := upsertConv convs (mkConvRow account fanId chat)
    let msgs' :=
      match chat.lastMessage with
      | some (lm, sender) =>
        if sender == "fan" && lm.uuid != "" then
          cacheLastInbound freshId fanId msgs lm
        else msgs
      | none => msgs
    (convs', msgs')
  else (convs, msgs)

/-- Stored `last_message_at` for a key: first matching row's value. -/
def lookupLma (convs : List ConvRow) (account fanId : Nat) : Option (Option Int) :=
  (convs.find? (convKey account fanId)).map (·.last_message_at)

/-- Ordering under which the stored timestamp may only move up: an absent
row or a null value is below everything, and present values compare by ≤. -/
def lmaLe (oldV newV : Option (Option Int)) : Prop :=
  match oldV, newV with
  | none, _ => True
  | some _, none => False
  | some none, some _ => True
  | some (some a), some (some b) => a ≤ b
  | some (some _), some none => False

/-- Observable effects of one `refreshToken` call, in program order: read
the stored credentials (`decrypt`), POST to the remote token endpoint,
write the rotated credentials back.  The body of `refreshToken`
(src/services/fanvueApi.js lines 26-62) consults no shared in-flight
registry before issuing the POST — the module holds no such state — so
each caller performs all three steps unconditionally. -/
inductive RefreshAction where
  | readCreds
  | postTokenRequest
  | writeCreds
  deriving DecidableEq, Repr

/-- Effect trace of a single `refreshToken` caller. -/
def refreshEffects : List RefreshAction :=
  [.readCreds, .postTokenRequest, .writeCreds]

/-- All interleavings of two effect traces: the possible schedules of two
concurrent callers under the cooperative single-process model, each caller's
own steps staying in order. -/
def interleavings : List RefreshAction → List RefreshAction → List (List RefreshAction)
  | [], ys => [ys]
  | x :: xs, [] => [x :: xs]
  | x :: xs, y :: ys =>
    (interleavings xs (y :: ys)).map (x :: ·) ++
      (interleavings (x :: xs) ys).map (y :: ·)
termination_by xs ys => xs.length + ys.length

/-- Concrete credential rows used to instantiate the theorems below. -/
def acct0 : AccountRecord :=
  { id := 1, access_token_enc := "encA", refresh_token_enc := "encR",
    token_expires_at := 1000, is_active := true, needs_reconnect := false }

/-- Credential row whose token is still far from expiry. -/
def acct1 : AccountRecord :=
  { id := 2, access_token_enc := "encA2", refresh_token_enc := "encR2",
    token_expires_at := 1000000000, is_active := true, needs_reconnect := false }

/-- One poll cycle over a page of remote chats for one account: the chats
are processed in order, each through `pollChatStep`, threading the two
tables (the per-chat items carry the fan id, the fresh local message id
and the remote chat). -/
def pollChats (account : Nat) (items : List (Nat × String × RemoteChat))
    (convs : List ConvRow) (msgs : List MessageRow) :
    List ConvRow × List MessageRow :=
  items.foldl (fun st it => pollChatStep account it.1 it.2.1 it.2.2 st.1 st.2)
    (convs, msgs)

/-- Concrete cached conversation row used to instantiate theorems. -/
def conv0 : ConvRow :=
  { account_id := 1, fan_id := 2, last_message_at := some 10, is_unread := false,
    unread_count := 0, last_message_preview := none, last_message_from := "fan",
    status := "open" }

/-- Concrete remote chat whose last-message timestamp (5) is older than
the cached one (10). -/
def chat0 : RemoteChat :=
  { lastMessageAt := some 5, isRead := true, unreadMessagesCount := 0,
    lastMessage := some (⟨"mu1", some "hi", 5⟩, "fan") }

/-- Concrete remote message payload used to instantiate theorems. -/
def rmsg0 : RemoteMessage := { uuid := "m-1", text := some "hello", sentAt := 42 }

/-- Concrete stored message row sharing the idempotency key of `rmsg0`. -/
def mrow0 : MessageRow :=
  { id := "m-1", conversation_id := 7, fanvue_message_id := "m-1",
    direction := "inbound", content := some "hello", sent_at := 42 }

/-- Running one caller to completion and then the other is one legal
schedule of two concurrent callers. -/
lemma append_mem_interleavings :
    ∀ xs ys : List RefreshAction, (xs ++ ys) ∈ interleavings xs ys := by
  intro xs
  induction xs with
  | nil => intro ys; simp [interleavings]
  | cons x xs ih =>
    intro ys
    match ys with
    | [] => simp [interleavings]
    | y :: ys =>
      rw [interleavings]
      exact List.mem_append_left _ (List.mem_map_of_mem (x :: ·) (ih (y :: ys)))

/-- Every interleaving of two traces carries each action exactly as often
as the two traces do together. -/
lemma interleavings_count (a : RefreshAction) :
    ∀ xs ys l, l ∈ interleavings xs ys → l.count a = xs.count a + ys.count a := by
  intro xs
  induction xs with
  | nil =>
    intro ys l hl
    simp [interleavings] at hl
    simp [hl]
  | cons x xs ihx =>
    intro ys
    induction ys with
    | nil =>
      intro l hl
      simp [interleavings] at hl
      simp [hl]
    | cons y ys ihy =>
      intro l hl
      rw [interleavings] at hl
      rcases List.mem_append.mp hl with h | h
      · obtain ⟨l', hl', rfl⟩ := List.mem_map.mp h
        have := ihx (y :: ys) l' hl'
        simp only [List.count_cons] at this ⊢
        omega
      · obtain ⟨l', hl', rfl⟩ := List.mem_map.mp h
        have := ihy l' hl'
        simp only [List.count_cons] at this ⊢
        omega

/-- C1: for every call to `withRetry` that fails with status 429, a numeric
`Retry-After` value N yields a wait of exactly N*1000 ms for any jitter
draw (no jitter added), and an absent header yields
`baseDelayMs * 2^attempt` plus the uniform jitter draw from [0, 500). -/
theorem retryAfter_precedence (baseDelayMs now n j : ℚ) (a maxR : Nat)
    (rest : List CallOutcome) (js : List ℚ) :
    computeWaitMs baseDelayMs a j now (some (.numeric n)) = n * 1000
    ∧ (0 ≤ j → j < 500 →
        computeWaitMs baseDelayMs a j now none = baseDelayMs * 2 ^ a + j)
    ∧ (0 < maxR →
        ((withRetryRun maxR baseDelayMs now
            (.fail ⟨some 429, some (.numeric n)⟩ :: rest) js).2).head? =
          some (n * 1000)) := by
  refine ⟨rfl, fun _ _ => rfl, fun hm => ?_⟩
  simp [withRetryRun, withRetryGo, hm, computeWaitMs]

/-- Witness for C1 at `Retry-After: 2`, base delay 1000, jitter 250. -/
theorem retryAfter_precedence_witness :
    computeWaitMs 1000 0 250 0 (some (.numeric 2)) = 2 * 1000
    ∧ computeWaitMs 1000 0 250 0 none = 1000 * 2 ^ 0 + 250
    ∧ ((withRetryRun 3 1000 0 [.fail ⟨some 429, some (.numeric 2)⟩] []).2).head? =
        some (2 * 1000) := by
  obtain ⟨h1, h2, h3⟩ := retryAfter_precedence 1000 0 2 250 0 3 [] []
  exact ⟨h1, h2 (by norm_num) (by norm_num), h3 (by norm_num)⟩

/-- C7 counterexample: a 429 whose `Retry-After` parses (via JavaScript
`Number`) to -1 makes `withRetry` compute the wait -1000 ms, which is
negative; and at `baseDelayMs = 100` the no-header waits with jitter draws
499 then 0 are 599 ms followed by 200 ms, which is decreasing. -/
theorem retry_wait_cex :
    (withRetryRun 3 1000 0 [.fail ⟨some 429, some (.numeric (-1))⟩, .ok 0] []).2 =
      [-1000]
    ∧ ((-1000 : ℚ) < 0)
    ∧ (withRetryRun 3 100 0 [fail429, fail429, .ok 0] [499, 0]).2 = [599, 200]
    ∧ ¬ ((599 : ℚ) ≤ 200) := by
  refine ⟨?_, by norm_num, ?_, by norm_num⟩
  · norm_num [withRetryRun, withRetryGo, computeWaitMs]
  · norm_num [withRetryRun, withRetryGo, computeWaitMs, fail429]

/-- Tail-then-drop is drop-by-one-more. -/
lemma drop_tail_eq (js : List ℚ) (i : Nat) : js.tail.drop i = js.drop (i + 1) := by
  cases js <;> simp

/-- Unfolding of one retrying step of the loop: a 429 with attempts left
sleeps the computed wait and recurses with the attempt counter bumped. -/
lemma withRetryGo_fail_step (maxR : Nat) (base now : ℚ) (attempt : Nat)
    (f : FailureInfo) (rest : List CallOutcome) (js : List ℚ)
    (hs : f.status = some 429) (h : attempt < maxR) :
    withRetryGo maxR base now attempt (.fail f :: rest) js =
      ((withRetryGo maxR base now (attempt + 1) rest js.tail).1,
        computeWaitMs base attempt (js.headD 0) now f.retryAfter ::
          (withRetryGo maxR base now (attempt + 1) rest js.tail).2) := by
  simp [withRetryGo, hs, h]

/-- Unfolding of the terminating step: no attempts left (or a non-429
status) rethrows with no further wait. -/
lemma withRetryGo_fail_stop (maxR : Nat) (base now : ℚ) (attempt : Nat)
    (f : FailureInfo) (rest : List CallOutcome) (js : List ℚ)
    (h : ¬(f.status = some 429 ∧ attempt < maxR)) :
    withRetryGo maxR base now attempt (.fail f :: rest) js =
      (some (.error f), []) := by
  simp only [withRetryGo, if_neg h]

/-- Closed form of the waits slept by the retry loop on a run of 429
failures carrying no `Retry-After` header: the i-th wait is
`base * 2 ^ (attempt + i)` plus the i-th jitter draw. -/
lemma withRetryGo_replicate_waits (maxR : Nat) (base now : ℚ) :
    ∀ (k attempt : Nat) (js : List ℚ),
      (withRetryGo maxR base now attempt
          (List.replicate k (.fail ⟨some 429, none⟩)) js).2 =
        (List.range (min k (maxR - attempt))).map
          fun i => base * 2 ^ (attempt + i) + (js.drop i).headD 0 := by
  intro k
  induction k with
  | zero => intro attempt js; simp [withRetryGo]
  | succ k ih =>
    intro attempt js
    rw [List.replicate_succ]
    by_cases h : attempt < maxR
    · have hmin : min (k + 1) (maxR - attempt) =
          min k (maxR - (attempt + 1)) + 1 := by omega
      rw [withRetryGo_fail_step maxR base now attempt _ _ js rfl h]
      simp only
      rw [ih (attempt + 1) js.tail, hmin, List.range_succ_eq_map, List.map_cons,
        List.map_map]
      congr 1
      apply List.map_congr_left
      intro i _
      simp only [Function.comp_apply, Nat.succ_eq_add_one, drop_tail_eq]
      have hexp : attempt + 1 + i = attempt + (i + 1) := by omega
      rw [hexp]
    · have hmin : min (k + 1) (maxR - attempt) = 0 := by omega
      rw [withRetryGo_fail_stop maxR base now attempt _ _ js (by simp [h])]
      simp [hmin]

/-- C7 amended: every wait computed on the no-header exponential path and
on the HTTP-date path is nonnegative, a numeric `Retry-After` wait is
nonnegative whenever the parsed value is, and on consecutive 429s without
`Retry-After`, for any jitter draws in [0, 500), the successive waits are
non-decreasing whenever `baseDelayMs ≥ 500` (every call site uses the
default 1000). -/
theorem retry_wait_amended (base now t n j : ℚ) (a maxR k : Nat) (js : List ℚ) :
    (0 ≤ base → 0 ≤ j → 0 ≤ computeWaitMs base a j now none)
    ∧ 0 ≤ computeWaitMs base a j now (some (.httpDate t))
    ∧ (0 ≤ n → 0 ≤ computeWaitMs base a j now (some (.numeric n)))
    ∧ (500 ≤ base → (∀ x ∈ js, 0 ≤ x ∧ x < 500) →
        (∀ w ∈ (withRetryRun maxR base now (List.replicate k fail429) js).2, 0 ≤ w)
        ∧ List.Chain' (· ≤ ·)
            ((withRetryRun maxR base now (List.replicate k fail429) js).2)) := by
  refine ⟨fun hb hj => ?_, ?_, fun hn => ?_, fun hb hj => ?_⟩
  · have := pow_nonneg (by norm_num : (0:ℚ) ≤ 2) a
    simp only [computeWaitMs]
    positivity
  · exact le_max_left 0 (t - now)
  · simpa [computeWaitMs] using mul_nonneg hn (by norm_num : (0:ℚ) ≤ 1000)
  · have hb0 : (0:ℚ) ≤ base := by linarith
    have hjit : ∀ i, 0 ≤ (js.drop i).headD 0 ∧ (js.drop i).headD 0 < 500 := by
      intro i
      cases hd : js.drop i with
      | nil => norm_num
      | cons x l =>
        have hx : x ∈ js := List.drop_subset i js (hd ▸ List.mem_cons_self x l)
        simpa using hj x hx
    rw [withRetryRun, show fail429 = CallOutcome.fail ⟨some 429, none⟩ from rfl,
      withRetryGo_replicate_waits]
    constructor
    · intro w hw
      obtain ⟨i, _, rfl⟩ := List.mem_map.mp hw
      have := pow_nonneg (by norm_num : (0:ℚ) ≤ 2) (0 + i)
      have := (hjit i).1
      positivity
    · have key : ∀ m : Nat,
          base * 2 ^ (0 + m) + (js.drop m).headD 0 ≤
            base * 2 ^ (0 + (m + 1)) + (js.drop (m + 1)).headD 0 := by
        intro m
        have h2 : (1:ℚ) ≤ 2 ^ m := by
          exact_mod_cast Nat.one_le_two_pow (n := m)
        have hbm : base ≤ base * 2 ^ m := le_mul_of_one_le_right hb0 h2
        have hpow : base * 2 ^ (m + 1) = base * 2 ^ m + base * 2 ^ m := by ring
        have j1 := hjit m
        have j2 := hjit (m + 1)
        simp only [Nat.zero_add]
        linarith [j1.1, j1.2, j2.1, j2.2]
      rw [List.chain'_map]
      cases hn : min k (maxR - 0) with
      | zero => simp
      | succ m =>
        rw [List.chain'_range_succ]
        intro i _
        exact key i

/-- Witness for the amended C7 at the default base delay 1000 and four
consecutive 429s. -/
theorem retry_wait_amended_witness :
    0 ≤ computeWaitMs 1000 0 100 0 none
    ∧ 0 ≤ computeWaitMs 1000 0 100 0 (some (.httpDate 5))
    ∧ 0 ≤ computeWaitMs 1000 0 100 0 (some (.numeric 2))
    ∧ List.Chain' (· ≤ ·)
        ((withRetryRun 3 1000 0 (List.replicate 4 fail429) [0, 100, 499]).2) := by
  obtain ⟨h1, h2, h3, h4⟩ := retry_wait_amended 1000 0 5 2 100 0 3 4 [0, 100, 499]
  have hj : ∀ x ∈ ([0, 100, 499] : List ℚ), 0 ≤ x ∧ x < 500 := by
    intro x hx
    simp only [List.mem_cons, List.not_mem_nil, or_false] at hx
    rcases hx with rfl | rfl | rfl <;> norm_num
  exact ⟨h1 (by norm_num) (by norm_num), h2, h3 (by norm_num),
    (h4 (by norm_num) hj).2⟩

/-- C3: at a transient failure (here an HTTP 500 and a no-response network
error) the refreshToken of src/services/fanvueApi.js leaves the credential
row untouched and propagates the error, exactly as the claim states; the
flowdesk-backend variant at the same HTTP 500 flips the active and
needs-reattach flags, deactivating the account against the claim. -/
theorem transient_refresh_divergence :
    (refreshTokenDb id 0 [acct0] acct0 (.err (some 500))).1 = [acct0]
    ∧ (refreshTokenDb id 0 [acct0] acct0 (.err (some 500))).2 =
        .error "Token refresh failed"
    ∧ (refreshTokenDb id 0 [acct0] acct0 (.err none)).1 = [acct0]
    ∧ (flowdeskRefreshTokenDb id 0 [acct0] acct0 (.err (some 500))).1 =
        [{ acct0 with is_active := false, needs_reconnect := true }]
    ∧ acct0.is_active = true ∧ acct0.needs_reconnect = false :=
  ⟨rfl, rfl, rfl, rfl, rfl, rfl⟩

/-- C6: a refresh failing with HTTP 403 leaves every row of the account
with `is_active = false` and `needs_reconnect = true`, and the account
selection of the subsequent poll ticks
(`is_active = true`, `needs_reconnect = false`) excludes it. -/
theorem auth403_deactivates (encrypt : String → String) (now : Int)
    (db : List AccountRecord) (account : AccountRecord) :
    (((refreshTokenDb encrypt now db account (.err (some 403))).1.filter
        fun a => a.id == account.id).all
      fun a => !a.is_active && a.needs_reconnect) = true
    ∧ ((eligibleAccounts
          (refreshTokenDb encrypt now db account (.err (some 403))).1).all
        fun a => a.id != account.id) = true := by
  have hdb : (refreshTokenDb encrypt now db account (.err (some 403))).1 =
      updateAccountRow db account.id markReconnect := by
    simp [refreshTokenDb]
  rw [hdb]
  constructor
  · simp only [List.all_eq_true, List.mem_filter, updateAccountRow, List.mem_map]
    rintro a ⟨⟨x, _, rfl⟩, hid⟩
    by_cases hx : x.id = account.id
    · simp [hx, markReconnect]
    · simp [hx] at hid
  · simp only [List.all_eq_true, eligibleAccounts, List.mem_filter,
      updateAccountRow, List.mem_map]
    rintro a ⟨⟨x, _, rfl⟩, hel⟩
    by_cases hx : x.id = account.id
    · simp [hx, markReconnect] at hel
    · simp [hx]

/-- C10: when the stored expiry is at least five minutes in the future,
`getValidToken` returns the decrypted stored access token, performs no
write to the credential table, and does not invoke `refreshToken`. -/
theorem fresh_token_no_refresh (decrypt encrypt : String → String) (now : Int)
    (db : List AccountRecord) (account : AccountRecord) (resp : TokenResponse)
    (h : 5 * 60 * 1000 ≤ account.token_expires_at - now) :
    getValidToken decrypt encrypt now db account resp =
      ((db, .ok (decrypt account.access_token_enc)), false) := by
  unfold getValidToken
  rw [if_neg (by omega)]

/-- Witness for C10 on a concrete fresh credential row. -/
theorem fresh_token_no_refresh_witness :
    5 * 60 * 1000 ≤ acct1.token_expires_at - 0
    ∧ getValidToken id id 0 [acct1] acct1 (.err none) =
        (([acct1], .ok "encA2"), false) :=
  ⟨by decide, fresh_token_no_refresh id id 0 [acct1] acct1 (.err none) (by decide)⟩

/-- C9 counterexample: the schedule that runs the two concurrent callers
back to back is a legal interleaving and issues two POSTs to the remote
token endpoint, not one — `refreshToken` has no single-flight guard. -/
theorem single_flight_cex :
    (refreshEffects ++ refreshEffects) ∈ interleavings refreshEffects refreshEffects
    ∧ (refreshEffects ++ refreshEffects).count RefreshAction.postTokenRequest ≠ 1 :=
  ⟨append_mem_interleavings refreshEffects refreshEffects, by decide⟩

/-- C9 amended: under every schedule of two concurrent `refreshToken`
callers for the same account, exactly two refresh requests reach the
remote token endpoint — concurrent refreshes are not serialized. -/
theorem refresh_not_single_flight (l : List RefreshAction)
    (hl : l ∈ interleavings refreshEffects refreshEffects) :
    l.count RefreshAction.postTokenRequest = 2 := by
  have h := interleavings_count .postTokenRequest refreshEffects refreshEffects l hl
  rw [h]
  decide

/-- Witness for the amended C9 at the sequential schedule. -/
theorem refresh_not_single_flight_witness :
    (refreshEffects ++ refreshEffects).count RefreshAction.postTokenRequest = 2 :=
  refresh_not_single_flight _ (append_mem_interleavings refreshEffects refreshEffects)

/-- Unfolding equation of the chunking loop. -/
lemma buildChunksGo_eq (step e cur : Nat) :
    buildChunksGo step e cur =
      if 0 < step ∧ cur < e then
        (cur, min (cur + step) e) :: buildChunksGo step e (min (cur + step) e)
      else [] := by
  rw [buildChunksGo]
  by_cases h : 0 < step ∧ cur < e
  · rw [dif_pos h, if_pos h]
  · rw [dif_neg h, if_neg h]

/-- Every window emitted by the loop starts no earlier than the loop
cursor, is nonempty, and ends no later than the range end. -/
lemma buildChunksGo_bounds (step e : Nat) :
    ∀ fuel cur, e - cur ≤ fuel →
      ∀ ch ∈ buildChunksGo step e cur, cur ≤ ch.1 ∧ ch.1 < ch.2 ∧ ch.2 ≤ e := by
  intro fuel
  induction fuel with
  | zero =>
    intro cur hcur ch hch
    rw [buildChunksGo_eq, if_neg (by omega)] at hch
    exact absurd hch (List.not_mem_nil ch)
  | succ fuel ih =>
    intro cur hcur ch hch
    rw [buildChunksGo_eq] at hch
    by_cases h : 0 < step ∧ cur < e
    · rw [if_pos h] at hch
      rcases List.mem_cons.mp hch with rfl | hch
      · simp only
        omega
      · have := ih (min (cur + step) e) (by omega) ch hch
        omega
    · rw [if_neg h] at hch
      exact absurd hch (List.not_mem_nil ch)

/-- Every date of the remaining range lies in some emitted window. -/
lemma buildChunksGo_cover (step e : Nat) (hstep : 0 < step) :
    ∀ fuel cur, e - cur ≤ fuel → cur < e →
      ∀ d, cur ≤ d → d ≤ e →
        ∃ ch ∈ buildChunksGo step e cur, ch.1 ≤ d ∧ d ≤ ch.2 := by
  intro fuel
  induction fuel with
  | zero => intro cur hcur hlt; omega
  | succ fuel ih =>
    intro cur hcur hlt d hd1 hd2
    rw [buildChunksGo_eq, if_pos ⟨hstep, hlt⟩]
    by_cases hdn : d ≤ min (cur + step) e
    · exact ⟨(cur, min (cur + step) e), List.mem_cons_self _ _, hd1, hdn⟩
    · have hnext : min (cur + step) e < e := by omega
      obtain ⟨ch, hch, hc⟩ :=
        ih (min (cur + step) e) (by omega) hnext d (by omega) hd2
      exact ⟨ch, List.mem_cons_of_mem _ hch, hc⟩

/-- Consecutive windows meet exactly at their shared boundary: each
window's end is the next window's start. -/
lemma buildChunksGo_chain (step e : Nat) :
    ∀ fuel cur, e - cur ≤ fuel →
      List.Chain' (fun a b : Nat × Nat => a.2 = b.1) (buildChunksGo step e cur) := by
  intro fuel
  induction fuel with
  | zero =>
    intro cur hcur
    rw [buildChunksGo_eq, if_neg (by omega)]
    exact List.chain'_nil
  | succ fuel ih =>
    intro cur hcur
    rw [buildChunksGo_eq]
    by_cases h : 0 < step ∧ cur < e
    · rw [if_pos h]
      rw [List.chain'_cons']
      refine ⟨?_, ih (min (cur + step) e) (by omega)⟩
      intro b hb
      rw [buildChunksGo_eq] at hb
      by_cases h2 : 0 < step ∧ min (cur + step) e < e
      · rw [if_pos h2] at hb
        simp only [List.head?_cons, Option.mem_def, Option.some.injEq] at hb
        rw [← hb]
      · rw [if_neg h2] at hb
        simp at hb
    · rw [if_neg h]
      exact List.chain'_nil

/-- Any two windows in emission order are separated: the earlier one ends
no later than the later one starts (so half-open windows never share a
date). -/
lemma buildChunksGo_pairwise (step e : Nat) :
    ∀ fuel cur, e - cur ≤ fuel →
      List.Pairwise (fun a b : Nat × Nat => a.2 ≤ b.1) (buildChunksGo step e cur) := by
  intro fuel
  induction fuel with
  | zero =>
    intro cur hcur
    rw [buildChunksGo_eq, if_neg (by omega)]
    exact List.Pairwise.nil
  | succ fuel ih =>
    intro cur hcur
    rw [buildChunksGo_eq]
    by_cases h : 0 < step ∧ cur < e
    · rw [if_pos h]
      refine List.pairwise_cons.mpr ⟨?_, ih (min (cur + step) e) (by omega)⟩
      intro b hb
      exact (buildChunksGo_bounds step e (e - min (cur + step) e)
        (min (cur + step) e) le_rfl b hb).1
    · rw [if_neg h]
      exact List.Pairwise.nil

/-- C2 amended: for any start ≤ end the windows of `buildChunks` cover the
closed range exactly (every in-range date lies in a window and every
window date is in range), consecutive windows share exactly their boundary
date, and distinct windows never share a date when read half-open — but
adjacent closed windows do both contain the shared boundary date.  The
routes/analytics.js variant satisfies the same coverage for any positive
step whenever start < end. -/
theorem chunk_coverage_amended (s e : Nat) (hse : s ≤ e) :
    (∀ d, (s ≤ d ∧ d ≤ e) ↔ ∃ ch ∈ buildChunks s e 28, ch.1 ≤ d ∧ d ≤ ch.2)
    ∧ List.Chain' (fun a b : Nat × Nat => a.2 = b.1) (buildChunks s e 28)
    ∧ List.Pairwise (fun a b : Nat × Nat => a.2 ≤ b.1) (buildChunks s e 28)
    ∧ (∀ step, 0 < step → s < e →
        ∀ d, (s ≤ d ∧ d ≤ e) ↔
          ∃ ch ∈ analyticsBuildChunks s e step, ch.1 ≤ d ∧ d ≤ ch.2) := by
  have hgen : ∀ step, 0 < step → s < e →
      ∀ d, (s ≤ d ∧ d ≤ e) ↔
        ∃ ch ∈ buildChunksGo step e s, ch.1 ≤ d ∧ d ≤ ch.2 := by
    intro step hstep hlt d
    constructor
    · intro ⟨h1, h2⟩
      exact buildChunksGo_cover step e hstep (e - s) s le_rfl hlt d h1 h2
    · intro ⟨ch, hch, hc1, hc2⟩
      have := buildChunksGo_bounds step e (e - s) s le_rfl ch hch
      omega
  by_cases hlt : s < e
  · have hbc : buildChunks s e 28 = buildChunksGo 28 e s := by
      rw [buildChunks, if_neg (by omega)]
    rw [hbc]
    exact ⟨hgen 28 (by omega) hlt,
      buildChunksGo_chain 28 e (e - s) s le_rfl,
      buildChunksGo_pairwise 28 e (e - s) s le_rfl,
      fun step hstep hlt' => hgen step hstep hlt'⟩
  · have hs : s = e := by omega
    have hbc : buildChunks s e 28 = [(s, e)] := by
      rw [buildChunks, if_pos (by omega)]
    rw [hbc]
    refine ⟨?_, List.chain'_singleton _, List.pairwise_singleton _ _,
      fun step _ hlt' => absurd hlt' hlt⟩
    intro d
    constructor
    · intro ⟨h1, h2⟩
      exact ⟨(s, e), List.mem_cons_self _ _, h1, h2⟩
    · intro ⟨ch, hch, hc1, hc2⟩
      rcases List.mem_cons.mp hch with rfl | hch
      · exact ⟨hc1, hc2⟩
      · exact absurd hch (List.not_mem_nil ch)

/-- Witness for the amended C2 at the spec's example range (day 0 is
2026-01-01, day 73 is 2026-03-15, 28-day chunks): coverage at day 30 and
the chain and separation properties of the emitted windows. -/
theorem chunk_coverage_amended_witness :
    ((0 ≤ 30 ∧ 30 ≤ 73) ↔ ∃ ch ∈ buildChunks 0 73 28, ch.1 ≤ 30 ∧ 30 ≤ ch.2)
    ∧ List.Chain' (fun a b : Nat × Nat => a.2 = b.1) (buildChunks 0 73 28)
    ∧ List.Pairwise (fun a b : Nat × Nat => a.2 ≤ b.1) (buildChunks 0 73 28) := by
  obtain ⟨h1, h2, h3, _⟩ := chunk_coverage_amended 0 73 (by omega)
  exact ⟨h1 30, h2, h3⟩

/-- C2 counterexample: on the 73-day range of the spec's example the first
two windows are (0, 28) and (28, 56); the boundary date 28 (2026-01-29)
belongs to both closed windows, so a date can belong to more than one
window and a closed-window sum counts it twice. -/
theorem chunk_coverage_cex :
    buildChunks 0 73 28 = [(0, 28), (28, 56), (56, 73)]
    ∧ (0 ≤ 28 ∧ 28 ≤ 28)
    ∧ (28 ≤ 28 ∧ 28 ≤ 56)
    ∧ ((0, 28) : Nat × Nat) ≠ (28, 56) := by
  refine ⟨?_, by omega, by omega, by decide⟩
  rw [buildChunks, if_neg (by omega)]
  rw [buildChunksGo_eq, if_pos (by omega)]
  rw [buildChunksGo_eq, if_pos (by norm_num)]
  rw [buildChunksGo_eq, if_pos (by norm_num)]
  rw [buildChunksGo_eq, if_neg (by norm_num)]
  norm_num

/-- C8 counterexample: the `buildChunks` of routes/analytics.js returns no
window at all for a zero-length range and for a reversed range (step shown
at the 28-day millisecond value used by its caller), not a single
degenerate window. -/
theorem degenerate_chunk_cex :
    analyticsBuildChunks 5 5 2419200000 = []
    ∧ analyticsBuildChunks 7 3 2419200000 = []
    ∧ ([] : List (Nat × Nat)).length ≠ 1 := by
  refine ⟨?_, ?_, by decide⟩ <;>
    rw [analyticsBuildChunks, buildChunksGo_eq, if_neg (by omega)]

/-- C8 amended: for a reversed or zero-length range the part_004
`buildChunks` returns exactly the single degenerate window over the input
range, while the routes/analytics.js variant returns the empty list. -/
theorem degenerate_chunk_amended (s e step : Nat) (h : e ≤ s) :
    buildChunks s e step = [(s, e)]
    ∧ analyticsBuildChunks s e step = [] := by
  constructor
  · rw [buildChunks, if_pos h]
  · rw [analyticsBuildChunks, buildChunksGo_eq, if_neg (by omega)]

/-- Witness for the amended C8 at a same-day range and a reversed range. -/
theorem degenerate_chunk_amended_witness :
    buildChunks 9 9 28 = [(9, 9)] ∧ analyticsBuildChunks 7 3 28 = [] :=
  ⟨(degenerate_chunk_amended 9 9 28 (by omega)).1,
    (degenerate_chunk_amended 7 3 28 (by omega)).2⟩

/-- Counting rows by key distributes over appended tables. -/
lemma countKey_append (a b : List MessageRow) (k : String) :
    countKey (a ++ b) k = countKey a k + countKey b k := by
  simp [countKey, List.filter_append]

/-- After an ingestion of `m`, a row with its idempotency key is present. -/
lemma any_key_cacheLastInbound (freshId : String) (cId : Nat)
    (msgs : List MessageRow) (m : RemoteMessage) :
    ((cacheLastInbound freshId cId msgs m).any
      fun r => r.fanvue_message_id == m.uuid) = true := by
  unfold cacheLastInbound
  by_cases h : (msgs.any fun r => r.fanvue_message_id == m.uuid) = true
  · rw [if_pos h]
    exact h
  · rw [if_neg h]
    simp

/-- Ingesting a payload whose key is already stored is a no-op. -/
lemma cacheLastInbound_of_present (freshId : String) (cId : Nat)
    (msgs : List MessageRow) (m : RemoteMessage)
    (h : (msgs.any fun r => r.fanvue_message_id == m.uuid) = true) :
    cacheLastInbound freshId cId msgs m = msgs := by
  unfold cacheLastInbound
  rw [if_pos h]

/-- Ingesting a payload whose key is absent stores exactly one row. -/
lemma cacheLastInbound_count (freshId : String) (cId : Nat)
    (msgs : List MessageRow) (m : RemoteMessage)
    (h0 : countKey msgs m.uuid = 0) :
    countKey (cacheLastInbound freshId cId msgs m) m.uuid = 1 := by
  have hnil : msgs.filter (fun r => r.fanvue_message_id == m.uuid) = [] :=
    List.length_eq_zero.mp h0
  have hany : (msgs.any fun r => r.fanvue_message_id == m.uuid) = false := by
    rw [List.any_eq_false]
    intro x hx hpx
    have hmem : x ∈ msgs.filter (fun r => r.fanvue_message_id == m.uuid) :=
      List.mem_filter.mpr ⟨hx, hpx⟩
    rw [hnil] at hmem
    exact absurd hmem (List.not_mem_nil x)
  unfold cacheLastInbound
  rw [if_neg (by simp [hany]), countKey_append, h0]
  simp [countKey]

/-- Upserting the same row a second time changes nothing. -/
lemma upsertMessageByKey_idem (msgs : List MessageRow) (r : MessageRow) :
    upsertMessageByKey (upsertMessageByKey msgs r) r = upsertMessageByKey msgs r := by
  by_cases hany : (msgs.any fun x => x.fanvue_message_id == r.fanvue_message_id) = true
  · have h1 : upsertMessageByKey msgs r =
        msgs.map fun x => if x.fanvue_message_id == r.fanvue_message_id then r else x := by
      unfold upsertMessageByKey
      rw [if_pos hany]
    have hany2 : ((msgs.map fun x =>
        if x.fanvue_message_id == r.fanvue_message_id then r else x).any
          fun x => x.fanvue_message_id == r.fanvue_message_id) = true := by
      rw [List.any_eq_true] at hany ⊢
      obtain ⟨x, hx, hpx⟩ := hany
      exact ⟨r, List.mem_map.mpr ⟨x, hx, by rw [if_pos hpx]⟩, by simp⟩
    rw [h1]
    unfold upsertMessageByKey
    rw [if_pos hany2, List.map_map]
    apply List.map_congr_left
    intro x _
    by_cases hx : (x.fanvue_message_id == r.fanvue_message_id) = true
    · simp [Function.comp, hx]
    · simp [Function.comp, hx]
  · have h1 : upsertMessageByKey msgs r = msgs ++ [r] := by
      unfold upsertMessageByKey
      rw [if_neg hany]
    have hanyF := Bool.eq_false_iff.mpr hany
    have hany2 : ((msgs ++ [r]).any
        fun x => x.fanvue_message_id == r.fanvue_message_id) = true := by
      simp
    rw [h1]
    unfold upsertMessageByKey
    rw [if_pos hany2, List.map_append]
    have hmsgs : (msgs.map fun x =>
        if x.fanvue_message_id == r.fanvue_message_id then r else x) = msgs := by
      conv_rhs => rw [← List.map_id msgs]
      apply List.map_congr_left
      intro x hx
      rw [if_neg (List.any_eq_false.mp hanyF x hx)]
      rfl
    rw [hmsgs]
    simp

/-- Upserting into a table holding at most one row with the key leaves
exactly one row with the key. -/
lemma upsertMessageByKey_count (msgs : List MessageRow) (r : MessageRow)
    (hle : countKey msgs r.fanvue_message_id ≤ 1) :
    countKey (upsertMessageByKey msgs r) r.fanvue_message_id = 1 := by
  by_cases hany : (msgs.any fun x => x.fanvue_message_id == r.fanvue_message_id) = true
  · have h1 : upsertMessageByKey msgs r =
        msgs.map fun x => if x.fanvue_message_id == r.fanvue_message_id then r else x := by
      unfold upsertMessageByKey
      rw [if_pos hany]
    have hcount : countKey (msgs.map fun x =>
        if x.fanvue_message_id == r.fanvue_message_id then r else x)
          r.fanvue_message_id = countKey msgs r.fanvue_message_id := by
      unfold countKey
      rw [List.filter_map, List.length_map]
      congr 1
      apply List.filter_congr
      intro x _
      by_cases hx : (x.fanvue_message_id == r.fanvue_message_id) = true
      · simp [Function.comp, hx]
      · simp [Function.comp, hx]
    have hpos : 0 < countKey msgs r.fanvue_message_id := by
      rw [List.any_eq_true] at hany
      obtain ⟨x, hx, hpx⟩ := hany
      exact List.length_pos_of_mem (List.mem_filter.mpr ⟨hx, hpx⟩)
    rw [h1, hcount]
    omega
  · have h1 : upsertMessageByKey msgs r = msgs ++ [r] := by
      unfold upsertMessageByKey
      rw [if_neg hany]
    have hanyF := Bool.eq_false_iff.mpr hany
    have h0 : countKey msgs r.fanvue_message_id = 0 := by
      unfold countKey
      rw [List.length_eq_zero, List.filter_eq_nil_iff]
      exact fun a ha => List.any_eq_false.mp hanyF a ha
    rw [h1, countKey_append, h0]
    simp [countKey]

/-- C4: ingesting the same remote message payload twice leaves exactly one
stored row: the select-then-insert path of services/inboxPoller.js makes
the second ingestion a no-op, and the keyed upsert path of part_008 makes
a repeated application a pure overwrite of the same key — neither ever
duplicates the idempotency key. -/
theorem idempotent_ingestion (msgs : List MessageRow) (m : RemoteMessage)
    (id1 id2 : String) (c1 c2 : Nat) (r : MessageRow) :
    cacheLastInbound id2 c2 (cacheLastInbound id1 c1 msgs m) m =
      cacheLastInbound id1 c1 msgs m
    ∧ (countKey msgs m.uuid = 0 →
        countKey (cacheLastInbound id1 c1 msgs m) m.uuid = 1)
    ∧ upsertMessageByKey (upsertMessageByKey msgs r) r = upsertMessageByKey msgs r
    ∧ (countKey msgs r.fanvue_message_id ≤ 1 →
        countKey (upsertMessageByKey msgs r) r.fanvue_message_id = 1) :=
  ⟨cacheLastInbound_of_present id2 c2 _ m (any_key_cacheLastInbound id1 c1 msgs m),
    cacheLastInbound_count id1 c1 msgs m,
    upsertMessageByKey_idem msgs r,
    upsertMessageByKey_count msgs r⟩

/-- Witness for C4 on the empty table and a concrete payload. -/
theorem idempotent_ingestion_witness :
    cacheLastInbound "loc2" 7 (cacheLastInbound "loc1" 7 [] rmsg0) rmsg0 =
      cacheLastInbound "loc1" 7 [] rmsg0
    ∧ countKey (cacheLastInbound "loc1" 7 [] rmsg0) rmsg0.uuid = 1
    ∧ upsertMessageByKey (upsertMessageByKey [] mrow0) mrow0 =
        upsertMessageByKey [] mrow0
    ∧ countKey (upsertMessageByKey [] mrow0) mrow0.fanvue_message_id = 1 := by
  obtain ⟨h1, h2, h3, h4⟩ := idempotent_ingestion [] rmsg0 "loc1" "loc2" 7 7 mrow0
  exact ⟨h1, h2 (by simp [countKey]), h3, h4 (by simp [countKey])⟩

/-- The stored-timestamp order is reflexive. -/
lemma lmaLe_refl : ∀ x, lmaLe x x := by
  rintro (_ | (_ | a)) <;> simp [lmaLe]

/-- The stored-timestamp order is transitive. -/
lemma lmaLe_trans : ∀ x y z, lmaLe x y → lmaLe y z → lmaLe x z := by
  rintro (_ | (_ | a)) (_ | (_ | b)) (_ | (_ | c)) h1 h2 <;> simp_all [lmaLe]
  all_goals omega

/-- Replacing every key-matching row finds the replacement first when some
row matched. -/
lemma find?_map_replace (l : List ConvRow) (p : ConvRow → Bool) (r : ConvRow)
    (hr : p r = true) (hl : ∃ x ∈ l, p x = true) :
    ((l.map fun x => if p x then r else x).find? p) = some r := by
  induction l with
  | nil =>
    obtain ⟨x, hx, _⟩ := hl
    exact absurd hx (List.not_mem_nil x)
  | cons a l ih =>
    by_cases ha : p a = true
    · simp only [List.map_cons, if_pos ha]
      exact List.find?_cons_of_pos _ hr
    · simp only [List.map_cons, if_neg ha]
      rw [List.find?_cons_of_neg _ ha]
      apply ih
      obtain ⟨x, hx, hpx⟩ := hl
      rcases List.mem_cons.mp hx with rfl | hx
      · exact absurd hpx ha
      · exact ⟨x, hx, hpx⟩

/-- A search that fails on the prefix continues into the suffix. -/
lemma find?_append_none (l₂ : List ConvRow) (p : ConvRow → Bool) :
    ∀ l₁ : List ConvRow, l₁.find? p = none →
      (l₁ ++ l₂).find? p = l₂.find? p := by
  intro l₁
  induction l₁ with
  | nil => simp
  | cons a l ih =>
    intro h
    by_cases ha : p a = true
    · rw [List.find?_cons_of_pos _ ha] at h
      exact absurd h (by simp)
    · rw [List.find?_cons_of_neg _ ha] at h
      rw [List.cons_append, List.find?_cons_of_neg _ ha]
      exact ih h

/-- After upserting `r`, looking its key up returns `r`. -/
lemma find?_upsertConv (convs : List ConvRow) (r : ConvRow) :
    ((upsertConv convs r).find? (convKey r.account_id r.fan_id)) = some r := by
  have hr : convKey r.account_id r.fan_id r = true := by simp [convKey]
  unfold upsertConv
  by_cases hany : (convs.any (convKey r.account_id r.fan_id)) = true
  · rw [if_pos hany]
    apply find?_map_replace _ _ _ hr
    rw [List.any_eq_true] at hany
    exact hany
  · rw [if_neg hany]
    have hnone : convs.find? (convKey r.account_id r.fan_id) = none := by
      rw [List.find?_eq_none]
      exact fun x hx => List.any_eq_false.mp (Bool.eq_false_iff.mpr hany) x hx
    rw [find?_append_none _ _ _ hnone]
    exact List.find?_cons_of_pos _ hr

/-- Replacing rows of a different key never disturbs a search for ours. -/
lemma find?_map_replace_other (l : List ConvRow) (p q : ConvRow → Bool)
    (r : ConvRow) (hqr : q r = false) (hdisj : ∀ x, p x = true → q x = false) :
    ((l.map fun x => if p x then r else x).find? q) = l.find? q := by
  induction l with
  | nil => simp
  | cons a l ih =>
    by_cases hpa : p a = true
    · have hqa : q a = false := hdisj a hpa
      simp only [List.map_cons, if_pos hpa]
      rw [List.find?_cons_of_neg _ (by simp [hqr]),
        List.find?_cons_of_neg _ (by simp [hqa])]
      exact ih
    · simp only [List.map_cons, if_neg hpa]
      by_cases hqa : q a = true
      · rw [List.find?_cons_of_pos _ hqa, List.find?_cons_of_pos _ hqa]
      · rw [List.find?_cons_of_neg _ hqa, List.find?_cons_of_neg _ hqa]
        exact ih

/-- Appending a row of a different key never disturbs a search for ours. -/
lemma find?_append_single_other (l : List ConvRow) (r : ConvRow)
    (q : ConvRow → Bool) (hqr : q r = false) :
    ((l ++ [r]).find? q) = l.find? q := by
  induction l with
  | nil =>
    have hneg : ¬ q r = true := by simp [hqr]
    rw [List.nil_append, List.find?_cons_of_neg _ hneg]
  | cons a l ih =>
    by_cases hqa : q a = true
    · rw [List.cons_append, List.find?_cons_of_pos _ hqa,
        List.find?_cons_of_pos _ hqa]
    · rw [List.cons_append, List.find?_cons_of_neg _ hqa,
        List.find?_cons_of_neg _ hqa]
      exact ih

/-- Upserting a row under one key never disturbs a lookup under another. -/
lemma find?_upsertConv_other (convs : List ConvRow) (r : ConvRow)
    (q : ConvRow → Bool) (hqr : q r = false)
    (hdisj : ∀ x, convKey r.account_id r.fan_id x = true → q x = false) :
    ((upsertConv convs r).find? q) = convs.find? q := by
  unfold upsertConv
  by_cases hany : (convs.any (convKey r.account_id r.fan_id)) = true
  · rw [if_pos hany]
    exact find?_map_replace_other convs _ q r hqr hdisj
  · rw [if_neg hany]
    exact find?_append_single_other convs r q hqr

/-- One poller chat step never decreases the stored `last_message_at` of
any conversation key. -/
lemma lookupLma_pollChatStep (account fanId a2 f2 : Nat) (freshId : String)
    (chat : RemoteChat) (convs : List ConvRow) (msgs : List MessageRow) :
    lmaLe (lookupLma convs account fanId)
      (lookupLma (pollChatStep a2 f2 freshId chat convs msgs).1 account fanId) := by
  unfold pollChatStep
  cases hNew : isNewer (convs.find? (convKey a2 f2)) chat.lastMessageAt with
  | false =>
    simp only [hNew, Bool.false_eq_true, if_false]
    exact lmaLe_refl _
  | true =>
    simp only [hNew, if_true]
    by_cases hkey : a2 = account ∧ f2 = fanId
    · obtain ⟨rfl, rfl⟩ := hkey
      have hmk : (mkConvRow a2 f2 chat).account_id = a2 ∧
          (mkConvRow a2 f2 chat).fan_id = f2 := ⟨rfl, rfl⟩
      have hfind := find?_upsertConv convs (mkConvRow a2 f2 chat)
      rw [hmk.1, hmk.2] at hfind
      cases hf : convs.find? (convKey a2 f2) with
      | none => simp [lookupLma, lmaLe, hf]
      | some conv =>
        rw [hf] at hNew
        cases hlma : chat.lastMessageAt with
        | none => rw [hlma] at hNew; simp [isNewer] at hNew
        | some t =>
          rw [hlma] at hNew
          have ht : conv.last_message_at.getD 0 < t := by
            have := of_decide_eq_true hNew
            exact this
          rw [lookupLma, lookupLma, hf, hfind]
          cases hc : conv.last_message_at with
          | none => simp [lmaLe, mkConvRow, hlma, hc]
          | some a =>
            rw [hc, Option.getD_some] at ht
            simp [lmaLe, mkConvRow, hlma, hc]
            omega
    · have hq : convKey account fanId (mkConvRow a2 f2 chat) = false := by
        rcases not_and_or.mp hkey with h | h <;> simp [convKey, mkConvRow, h]
      have hdisj : ∀ x : ConvRow,
          convKey (mkConvRow a2 f2 chat).account_id (mkConvRow a2 f2 chat).fan_id x = true →
            convKey account fanId x = false := by
        intro x hx
        simp only [convKey, mkConvRow, Bool.and_eq_true, beq_iff_eq] at hx
        rcases not_and_or.mp hkey with h | h <;>
          simp [convKey, hx.1, hx.2, h]
      have heq := find?_upsertConv_other convs (mkConvRow a2 f2 chat)
        (convKey account fanId) hq hdisj
      rw [lookupLma, lookupLma, heq]
      exact lmaLe_refl _

/-- Across a whole poll cycle the stored `last_message_at` of any key never
decreases. -/
lemma lookupLma_pollChats (account fanId : Nat) :
    ∀ (items : List (Nat × String × RemoteChat)) (convs : List ConvRow)
      (msgs : List MessageRow),
      lmaLe (lookupLma convs account fanId)
        (lookupLma (pollChats account items convs msgs).1 account fanId) := by
  intro items
  induction items with
  | nil => intro convs msgs; exact lmaLe_refl _
  | cons it items ih =>
    intro convs msgs
    have hstep := lookupLma_pollChatStep account fanId account it.1 it.2.1 it.2.2
      convs msgs
    have hfold : pollChats account (it :: items) convs msgs =
        pollChats account items
          (pollChatStep account it.1 it.2.1 it.2.2 convs msgs).1
          (pollChatStep account it.1 it.2.1 it.2.2 convs msgs).2 := by
      simp [pollChats]
    rw [hfold]
    exact lmaLe_trans _ _ _ hstep
      (ih (pollChatStep account it.1 it.2.1 it.2.2 convs msgs).1
        (pollChatStep account it.1 it.2.1 it.2.2 convs msgs).2)

/-- C5: a remote chat whose last-message timestamp is not strictly newer
than the cached value writes nothing to the conversations or messages
tables, and consequently the stored `last_message_at` of every
`(account, fan)` key is monotonically non-decreasing, both over a single
chat step and over a whole poll cycle. -/
theorem tiebreak_no_write (account fanId a2 f2 : Nat) (freshId : String)
    (chat : RemoteChat) (convs : List ConvRow) (msgs : List MessageRow)
    (items : List (Nat × String × RemoteChat)) :
    (isNewer (convs.find? (convKey account fanId)) chat.lastMessageAt = false →
      pollChatStep account fanId freshId chat convs msgs = (convs, msgs))
    ∧ lmaLe (lookupLma convs account fanId)
        (lookupLma (pollChatStep a2 f2 freshId chat convs msgs).1 account fanId)
    ∧ lmaLe (lookupLma convs account fanId)
        (lookupLma (pollChats account items convs msgs).1 account fanId) := by
  refine ⟨fun h => ?_, lookupLma_pollChatStep account fanId a2 f2 freshId chat convs msgs,
    lookupLma_pollChats account fanId items convs msgs⟩
  unfold pollChatStep
  simp only [h, Bool.false_eq_true, if_false]

/-- Witness for C5: remote timestamp 5 against cached timestamp 10
produces no writes and the cached value stays 10. -/
theorem tiebreak_no_write_witness :
    isNewer ([conv0].find? (convKey 1 2)) chat0.lastMessageAt = false
    ∧ pollChatStep 1 2 "loc9" chat0 [conv0] [] = ([conv0], [])
    ∧ lmaLe (lookupLma [conv0] 1 2)
        (lookupLma (pollChatStep 1 2 "loc9" chat0 [conv0] []).1 1 2) := by
  obtain ⟨h1, h2, _⟩ := tiebreak_no_write 1 2 1 2 "loc9" chat0 [conv0] [] []
  have hfalse : isNewer ([conv0].find? (convKey 1 2)) chat0.lastMessageAt = false := by
    decide
  exact ⟨hfalse, h1 hfalse, h2⟩


